import Mathlib

/-!
Verification of the change-classification and deprecation-validation pipeline
of `packages/definitions-parser/src/git.ts`.

The TypeScript source is shallowly embedded: `gitChanges` becomes a fold over
an explicit `ChangeState`; the async orchestrator `getAffectedPackagesFromDiff`
becomes a pure function parameterised by oracles for its collaborators
(registry client, package index, affected-set resolver), returning an
`Except` for thrown exceptions together with a trace of which collaborator
calls were made.  JavaScript `Map`s (insertion-ordered, last-write-wins) are
modelled as association lists with an order-preserving `mapSet`.
-/

/-! ### String and list utilities (model of JS primitives) -/

/-- Does `hay` start with `needle`?  (Char-list level, kernel-reducible.) -/
def listStartsWith : List Char → List Char → Bool
  | _, [] => true
  | [], _ :: _ => false
  | a :: as, b :: bs => a == b && listStartsWith as bs

/-- Does `needle` occur as a contiguous segment of `hay`? -/
def listContainsSeg : List Char → List Char → Bool
  | [], needle => needle.isEmpty
  | hay@(_ :: rest), needle => listStartsWith hay needle || listContainsSeg rest needle

/-- Substring test, modelling JavaScript `RegExp.test` on a literal pattern
and `String.includes`. -/
def strContains (hay needle : String) : Bool :=
  listContainsSeg hay.data needle.data

/-- Split a character list at every occurrence of `c` (model of
JavaScript `String.split("/")`). -/
def splitOnChar (c : Char) : List Char → List (List Char)
  | [] => [[]]
  | a :: as =>
    if a == c then [] :: splitOnChar c as
    else
      match splitOnChar c as with
      | [] => [[a]]
      | g :: gs => (a :: g) :: gs

/-- Split a string on `'/'`, returning the components as strings. -/
def splitSlash (s : String) : List String :=
  (splitOnChar '/' s.data).map List.asString

/-- All characters are decimal digits and the list is non-empty. -/
def allDigits (s : List Char) : Bool :=
  !s.isEmpty && s.all Char.isDigit

/-- Decimal value of a digit list (most significant first). -/
def digitsToNat (s : List Char) : Nat :=
  s.foldl (fun acc c => acc * 10 + (c.toNat - '0'.toNat)) 0

/-- Insertion-ordered association-list insertion modelling JavaScript
`Map.prototype.set`: an existing key keeps its position and gets the new
value; a fresh key is appended at the end. -/
def mapSet (m : List (String × α)) (k : String) (v : α) : List (String × α) :=
  if m.any (fun kv => kv.1 == k) then
    m.map (fun kv => if kv.1 == k then (k, v) else kv)
  else
    m ++ [(k, v)]

/-- Lookup in the association list (model of `Map.prototype.get`). -/
def lookupKey (m : List (String × α)) (k : String) : Option α :=
  (m.find? (fun kv => kv.1 == k)).map (fun kv => kv.2)

/-- First-occurrence deduplication, modelling iteration order of a JavaScript
`Set` built from a list. -/
def dedupe (l : List String) : List String :=
  l.foldl (fun acc x => if acc.contains x then acc else acc ++ [x]) []

/-! ### Data model -/

/-- A package version selector: either the wildcard `"*"` or an exact
typing version with a major part and an optional minor part
(`TypingVersion` in `packages.ts`). -/
inductive DependencyVersion where
  | star : DependencyVersion
  | exact (major : Nat) (minor : Option Nat) : DependencyVersion
deriving DecidableEq, Repr

/-- Model of `PackageId` from `packages.ts`: the identity of a
package+version.  `typesDirectoryName` is optional (the source guards it
with `assertDefined`). -/
structure PackageId where
  typesDirectoryName : Option String
  version : DependencyVersion
deriving DecidableEq, Repr

/-- The non-rename statuses of a git diff line. -/
inductive SimpleStatus where
  | A : SimpleStatus
  | D : SimpleStatus
  | M : SimpleStatus
deriving DecidableEq, Repr

/-- Model of `GitDiff` from `git.ts`: a tagged union of
`{status: "A"|"D"|"M", file}` and `{status: "R", file, source}`. -/
inductive GitDiff where
  | simple (status : SimpleStatus) (file : String) : GitDiff
  | renamed (file source : String) : GitDiff
deriving DecidableEq, Repr

/-- The `file` field of a diff entry. -/
def GitDiff.file : GitDiff → String
  | .simple _ f => f
  | .renamed f _ => f

/-- Is the diff status `"M"`? -/
def GitDiff.isM : GitDiff → Bool
  | .simple .M _ => true
  | _ => false

/-- Is the diff status `"D"`? -/
def GitDiff.isD : GitDiff → Bool
  | .simple .D _ => true
  | _ => false

/-- Is the diff status `"A"` or `"R"` (the `add` direction of the error
message in `gitChanges`)? -/
def GitDiff.isAdd : GitDiff → Bool
  | .simple .A _ => true
  | .renamed _ _ => true
  | _ => false

/-- Modelled from the spec: `formatTypingVersion` (from `packages.ts`,
missing from the given sources) renders a typing version as `<major>` or
`<major>.<minor>` for use in the composite key
`"<directoryName>/v<version>"`; §4.1 of the spec fixes the key format. -/
def formatTypingVersion (major : Nat) (minor : Option Nat) : String :=
  match minor with
  | none => toString major
  | some m => toString major ++ "." ++ toString m

/-- Parse a version directory component `v<major>[.<minor>]`. -/
def parseVersionDir (s : String) : Option (Nat × Option Nat) :=
  match s.data with
  | 'v' :: rest =>
    match splitOnChar '.' rest with
    | [maj] => if allDigits maj then some (digitsToNat maj, none) else none
    | [maj, min] =>
      if allDigits maj && allDigits min then some (digitsToNat maj, some (digitsToNat min))
      else none
    | _ => none
  | _ => none

/-- Modelled from the spec: `getDependencyFromFile` (from `packages.ts`,
missing from the given sources) maps a path to a `PackageId` using the path
grammar `types/<directoryName>[/v<major>[.<minor>]]/...` (§4.2); paths not
matching the grammar map to `none`.  §8's scenarios fix
`types/foo/index.d.ts ↦ foo@*` and `types/foo/v2/index.d.ts ↦ foo@v2`. -/
def getDependencyFromFile (file : String) : Option PackageId :=
  match splitSlash file with
  | root :: dir :: sub :: _ =>
    if root = "types" then
      match parseVersionDir sub with
      | some (maj, min) => some ⟨some dir, .exact maj min⟩
      | none => some ⟨some dir, .star⟩
    else none
  | _ => none

/-! ### The change classifier `gitChanges` -/

/-- The test `/types[\\/]/.test(diff.file)` from `git.ts` line 73: the file
path contains `types/` or `types\` as a substring. -/
def underTypes (file : String) : Bool :=
  strContains file "types/" || strContains file "types\\"

/-- The composite key
```${dep.typesDirectoryName}/v${dep.version === "*" ? "*" : formatTypingVersion(dep.version)}``` built in `gitChanges` (an undefined directory name
coerces to the string `"undefined"` as in JavaScript template literals). -/
def depKey (dep : PackageId) : String :=
  (match dep.typesDirectoryName with
   | some d => d
   | none => "undefined") ++ "/v" ++
  (match dep.version with
   | .star => "*"
   | .exact maj min => formatTypingVersion maj min)

/-- The structural-error message pushed by `gitChanges` for a file that is
under `types/` but maps to no package. -/
def unexpectedFileError (isAdd : Bool) (file : String) : String :=
  if isAdd then
    "Unexpected file added: " ++ file ++ "\nYou should only add files that are part of packages."
  else
    "Unexpected file deleted: " ++ file ++
      "\nYou should only delete files that are a part of removed packages."

/-- The mutable state of the loop in `gitChanges`: the two insertion-ordered
maps and the error array. -/
structure ChangeState where
  deletions : List (String × PackageId)
  additions : List (String × PackageId)
  errors : List String
deriving DecidableEq, Repr

/-- One iteration of the `for (const diff of diffs)` loop in `gitChanges`
(lines 72–99 of `git.ts`). -/
def gitChangesStep (s : ChangeState) (diff : GitDiff) : ChangeState :=
  if !underTypes diff.file then s
  else if diff.isM then s
  else
    match getDependencyFromFile diff.file with
    | some dep =>
      let key := depKey dep
      let s1 :=
        if diff.isD then { s with deletions := mapSet s.deletions key dep }
        else { s with additions := mapSet s.additions key dep }
      match diff with
      | .renamed _ source =>
        match getDependencyFromFile source with
        | some srcDep =>
          { s1 with deletions := mapSet s1.deletions (depKey srcDep) srcDep }
        | none => s1
      | _ => s1
    | none =>
      { s with errors := s.errors ++ [unexpectedFileError diff.isAdd diff.file] }

/-- The state after processing the whole diff list. -/
def gitChangesState (diffs : List GitDiff) : ChangeState :=
  diffs.foldl gitChangesStep ⟨[], [], []⟩

/-- `gitChanges` (lines 66–102 of `git.ts`): returns `{errors}` if any
structural error occurred, else `{deletions, additions}` in map insertion
order. -/
def gitChanges (diffs : List GitDiff) :
    Sum (List String) (List PackageId × List PackageId) :=
  let s := gitChangesState diffs
  if s.errors.isEmpty then
    .inr (s.deletions.map (fun kv => kv.2), s.additions.map (fun kv => kv.2))
  else .inl s.errors

/-! ### The deprecation validator -/

/-- Modelled from the spec: a semantic version (major, minor, patch), the
ordering domain of `semver.gt`; §4.4 requires "strictly greater
(semantic-version ordering)". -/
structure Semver where
  major : Nat
  minor : Nat
  patch : Nat
deriving DecidableEq, Repr

/-- Modelled from the spec: strict semantic-version ordering `semver.gt`
(lexicographic on major, minor, patch). -/
def semverGt (a b : Semver) : Bool :=
  (a.major > b.major) ||
  (a.major == b.major && a.minor > b.minor) ||
  (a.major == b.major && a.minor == b.minor && a.patch > b.patch)

/-- Render a semantic version as `major.minor.patch` (JavaScript string
coercion of a `semver.SemVer`). -/
def formatSemver (v : Semver) : String :=
  toString v.major ++ "." ++ toString v.minor ++ "." ++ toString v.patch

/-- Modelled from the spec: `NotNeededPackage` (§3 `DeprecationRecord`,
the class lives in `packages.ts` outside the given sources): `name` is the
deprecated `@types` package's name, `libraryName` the external replacement,
`version` the minimum replacement version. -/
structure NotNeededPackage where
  name : String
  libraryName : String
  version : Semver
deriving DecidableEq, Repr

/-- Error codes of a failed registry lookup, as inspected by
`checkNotNeededPackage` (`reason.code`): `E404`, `ETARGET`, or anything
else (network failure, rate limit, …). -/
inductive RegCode where
  | e404 : RegCode
  | etarget : RegCode
  | other : RegCode
deriving DecidableEq, Repr

/-- Result of one `pacote.manifest` call: a manifest carrying the resolved
version, or a rejection carrying an error code. -/
inductive RegResult where
  | manifest (version : Semver) : RegResult
  | err (code : RegCode) : RegResult
deriving DecidableEq, Repr

/-- The package spec string of the first registry lookup in
`checkNotNeededPackage`: ```${unneeded.libraryName}@${unneeded.version}```. -/
def replSpec (u : NotNeededPackage) : String :=
  u.libraryName ++ "@" ++ formatSemver u.version

/-- The error string collected when the replacement package does not exist
on the registry (`E404` branch of the first lookup). -/
def replNotFoundMsg (u : NotNeededPackage) : String :=
  "The entry for " ++ u.name ++ " in notNeededPackages.json has\n\"libraryName\": \"" ++
    u.libraryName ++ "\", but there is no npm package with this name.\n" ++
    "Unneeded packages have to be replaced with a package on npm."

/-- The error string collected when the named replacement version is not
published (`ETARGET` branch of the first lookup). -/
def versionNotOnNpmMsg (u : NotNeededPackage) : String :=
  "The specified version " ++ formatSemver u.version ++ " of " ++ u.libraryName ++
    " is not on npm."

/-- The error string collected when the deprecated `@types` package itself
is not found (`E404` branch of the second lookup). -/
def typesNotFoundMsg (u : NotNeededPackage) : String :=
  "Unexpected error: @types package not found for " ++ u.name

/-- The error string collected when the replacement version is not newer
than the latest published `@types` version. -/
def versionOrderMsg (u : NotNeededPackage) (typingsVersion : Semver) : String :=
  "The specified version " ++ formatSemver u.version ++ " of " ++ u.libraryName ++
    " must be newer than the version\nit is supposed to replace, " ++
    formatSemver typingsVersion ++ " of " ++ u.name ++ "."

/-- `checkNotNeededPackage` (lines 138–164 of `git.ts`), parameterised by
the registry oracle `reg` standing for `pacote.manifest`.  A `.error c`
models a rethrown registry rejection (the `throw reason` branches). -/
def checkNotNeededPackage (reg : String → RegResult) (u : NotNeededPackage) :
    Except RegCode (List String) := do
  let replacementPackage : Sum String Semver ←
    match reg (replSpec u) with
    | .manifest v => pure (Sum.inr v)
    | .err .e404 => pure (Sum.inl (replNotFoundMsg u))
    | .err .etarget => pure (Sum.inl (versionNotOnNpmMsg u))
    | .err .other => throw RegCode.other
  let errors : List String :=
    match replacementPackage with
    | .inl s => [s]
    | .inr _ => []
  let typings : Sum String Semver ←
    match reg u.name with
    | .manifest v => pure (Sum.inr v)
    | .err .e404 => pure (Sum.inl (typesNotFoundMsg u))
    | .err c => throw c
  match typings with
  | .inl s => pure (errors ++ [s])
  | .inr typingsVersion =>
    if !semverGt u.version typingsVersion then
      pure (errors ++ [versionOrderMsg u typingsVersion])
    else
      pure errors

/-- Modelled from the spec: the read-only package-index interface (§6)
consumed by `getNotNeededPackages` — `AllPackages` lives in `packages.ts`,
outside the given sources.  `hasTypingFor` answers the query at version
`"*"` (the only version used at this call site) and `getNotNeededPackage`
is `deprecationRecordOf`. -/
structure AllPackagesModel where
  hasTypingFor : String → Bool
  getNotNeededPackage : String → Option NotNeededPackage

/-- The fatal (thrown, uncaught) failures of the pipeline. -/
inductive Fatal where
  | assertUndefined : Fatal
  | regError (code : RegCode) : Fatal
  | unexpectedErrorArray : Fatal
deriving DecidableEq, Repr

/-- The error string of the consistency check: a deleted package listed as
deprecated still has files. -/
def deleteFilesMsg (p : String) : String :=
  "Please delete all files in " ++ p ++ " when adding it to notNeededPackages.json."

/-- `deletions.map(p => assertDefined(p.typesDirectoryName))`: JavaScript
evaluates the mapper eagerly and `assertDefined` throws on the first
undefined directory name. -/
def mapAssertDefined : List PackageId → Except Fatal (List String)
  | [] => .ok []
  | p :: ps =>
    match p.typesDirectoryName with
    | none => .error .assertUndefined
    | some d => do
      let rest ← mapAssertDefined ps
      pure (d :: rest)

/-- The body of the `for (const p of deletedPackages)` loop in
`getNotNeededPackages`, accumulating `(notNeededs, errors)`. -/
def notNeededStep (allPackages : AllPackagesModel)
    (acc : List NotNeededPackage × List String) (p : String) :
    List NotNeededPackage × List String :=
  let hasTyping := allPackages.hasTypingFor p
  let notNeeded := allPackages.getNotNeededPackage p
  match notNeeded with
  | some n =>
    if hasTyping then (acc.1, acc.2 ++ [deleteFilesMsg p])
    else (acc.1 ++ [n], acc.2)
  | none => acc

/-- `getNotNeededPackages` (lines 170–187 of `git.ts`). -/
def getNotNeededPackages (allPackages : AllPackagesModel)
    (deletions : List PackageId) :
    Except Fatal (Sum (List String) (List NotNeededPackage)) := do
  let names ← mapAssertDefined deletions
  let deletedPackages := dedupe names
  let acc := deletedPackages.foldl (notNeededStep allPackages) ([], [])
  if acc.2.isEmpty then pure (.inr acc.1) else pure (.inl acc.2)

/-! ### The orchestrator `getAffectedPackagesFromDiff` -/

/-- Modelled from the spec: `PreparePackagesResult` (§3 `AffectedResult`
success case) — the directly changed package names and their transitive
dependents; the type lives in `get-affected-packages.ts`, outside the given
sources. -/
structure PreparePackagesResult where
  packageNames : List String
  dependents : List String
deriving DecidableEq, Repr

/-- Collaborator calls whose invocation the embedding records: the
deprecation validator (`getNotNeededPackages` / `checkNotNeededPackage`
block) and the affected-set resolver (`getAffectedPackages`). -/
inductive PipelineCall where
  | validator : PipelineCall
  | resolver : PipelineCall
deriving DecidableEq, Repr

/-- The `for (const deleted of deleteds)` loop of
`getAffectedPackagesFromDiff`: run `checkNotNeededPackage` on each record in
order, concatenating the collected errors; a thrown registry error aborts
the loop. -/
def runChecks (reg : String → RegResult) :
    List NotNeededPackage → Except RegCode (List String)
  | [] => .ok []
  | d :: ds => do
    let e ← checkNotNeededPackage reg d
    let rest ← runChecks reg ds
    pure (e ++ rest)

/-- The deprecation-validation block of `getAffectedPackagesFromDiff`
(lines 113–120): run only when `notNeededPackages.json` is in the diff;
yields the accumulated `errors` array or a fatal failure. -/
def deprecationErrors (allPackages : AllPackagesModel)
    (reg : String → RegResult) (diffs : List GitDiff)
    (deletions : List PackageId) : Except Fatal (List String) :=
  if diffs.any (fun d => d.file == "notNeededPackages.json") then
    match getNotNeededPackages allPackages deletions with
    | .error f => .error f
    | .ok (.inl errs) => .ok errs
    | .ok (.inr deleteds) =>
      match runChecks reg deleteds with
      | .error c => .error (.regError c)
      | .ok errs => .ok errs
  else .ok []

/-- Did the deprecation-validation block actually call into the validator
(i.e. was `notNeededPackages.json` in the diff)? -/
def validatorTrace (diffs : List GitDiff) : List PipelineCall :=
  if diffs.any (fun d => d.file == "notNeededPackages.json") then [.validator]
  else []

/-- `getAffectedPackagesFromDiff` (lines 103–131 of `git.ts`),
parameterised by the package index, the registry oracle, and the
affected-set resolver standing for `getAffectedPackages` (which, like the
source, may return an error-shaped value).  Returns the result — an error
list or a `PreparePackagesResult`, or a fatal thrown failure — together
with the trace of collaborator calls made, in order. -/
def getAffectedPackagesFromDiff (allPackages : AllPackagesModel)
    (reg : String → RegResult)
    (resolver : List PackageId → List PackageId →
      Sum (List String) PreparePackagesResult)
    (diffs : List GitDiff) :
    Except Fatal (Sum (List String) PreparePackagesResult) × List PipelineCall :=
  match gitChanges diffs with
  | .inl errs => (.ok (.inl errs), [])
  | .inr git =>
    match deprecationErrors allPackages reg diffs git.1 with
    | .error f => (.error f, validatorTrace diffs)
    | .ok errors =>
      let affected := resolver git.1 git.2
      let trace := validatorTrace diffs ++ [.resolver]
      if !errors.isEmpty then (.ok (.inl errors), trace)
      else
        match affected with
        | .inl _ => (.error .unexpectedErrorArray, trace)
        | .inr res => (.ok (.inr res), trace)

/-! ### Theorems -/

/-- C8: a diff event with status `Modified`, or one whose path is not under
the package root (does not contain `types/` or `types\`), contributes
nothing to `gitChanges`: the loop step leaves deletions, additions and
errors unchanged. -/
theorem gitChangesStep_ignores (s : ChangeState) (d : GitDiff)
    (h : d.isM = true ∨ underTypes d.file = false) :
    gitChangesStep s d = s := by
  rcases h with h | h
  · cases d with
    | simple st f =>
      cases st <;> simp_all [GitDiff.isM, gitChangesStep]
    | renamed f src => simp [GitDiff.isM] at h
  · simp [gitChangesStep, h]

/-- C9: for a `Renamed` event whose destination maps to a package identity
but whose source fails the path grammar, `gitChanges` records the
destination in additions and records neither a deletion nor an error for
the failed source path. -/
theorem gitChangesStep_rename_bad_source (s : ChangeState) (file source : String)
    (dep : PackageId)
    (hu : underTypes file = true)
    (hd : getDependencyFromFile file = some dep)
    (hs : getDependencyFromFile source = none) :
    gitChangesStep s (.renamed file source) =
      { s with additions := mapSet s.additions (depKey dep) dep } := by
  simp [gitChangesStep, hu, hd, hs, GitDiff.file, GitDiff.isM, GitDiff.isD]

/-- C4: for any path pair `(a, b)` that both map successfully under the
path grammar and both fall under the package root, classifying
`[Renamed{from: a, to: b}]` yields the same result as classifying
`[Deleted{a}, Added{b}]`: the destination is recorded in additions and the
source in deletions. -/
theorem gitChanges_rename_equiv (a b : String) (da db : PackageId)
    (hua : underTypes a = true) (hub : underTypes b = true)
    (ha : getDependencyFromFile a = some da)
    (hb : getDependencyFromFile b = some db) :
    gitChanges [.renamed b a] = gitChanges [.simple .D a, .simple .A b] := by
  simp [gitChanges, gitChangesState, gitChangesStep, hua, hub, ha, hb,
        GitDiff.file, GitDiff.isM, GitDiff.isD, mapSet]

/-- An event that triggers the structural-error branch of `gitChanges`:
under `types/`, not `Modified`, and failing the path grammar. -/
def isBadDiff (d : GitDiff) : Bool :=
  underTypes d.file && !d.isM && (getDependencyFromFile d.file).isNone

/-- The error message the structural-error branch pushes for `d`. -/
def diffError (d : GitDiff) : String := unexpectedFileError d.isAdd d.file

lemma gitChangesStep_errors (s : ChangeState) (d : GitDiff) :
    (gitChangesStep s d).errors =
      s.errors ++ (if isBadDiff d then [diffError d] else []) := by
  by_cases hu : underTypes d.file
  · by_cases hm : d.isM
    · simp [gitChangesStep, hu, hm, isBadDiff]
    · cases hdep : getDependencyFromFile d.file with
      | some dep =>
        cases d with
        | simple st f =>
          cases st <;>
            simp_all [gitChangesStep, isBadDiff, GitDiff.isM, GitDiff.isD, GitDiff.file]
        | renamed f src =>
          cases hsrc : getDependencyFromFile src <;>
            simp_all [gitChangesStep, isBadDiff, GitDiff.isM, GitDiff.isD, GitDiff.file]
      | none =>
        simp [gitChangesStep, hu, hm, hdep, isBadDiff, diffError]
  · simp [gitChangesStep, hu, isBadDiff]

lemma foldl_gitChangesStep_errors (diffs : List GitDiff) (s : ChangeState) :
    (diffs.foldl gitChangesStep s).errors =
      s.errors ++ (diffs.filter isBadDiff).map diffError := by
  induction diffs generalizing s with
  | nil => simp
  | cons d ds ih =>
    rw [List.foldl_cons, ih, gitChangesStep_errors]
    by_cases hb : isBadDiff d <;> simp [hb, List.filter_cons]

/-- C2 (amended): each non-`Modified` event whose path is under the package
root (contains `types/` or `types\`) but does not map under the path
grammar causes exactly one structural error, in diff input order, and when
any such error exists the result is error-only: the deletions and additions
are not returned.  (Events outside the package root are ignored silently —
see the counterexample.) -/
theorem gitChanges_structural_errors (diffs : List GitDiff) :
    (gitChangesState diffs).errors = (diffs.filter isBadDiff).map diffError ∧
    ((diffs.filter isBadDiff) ≠ [] →
      gitChanges diffs = .inl ((diffs.filter isBadDiff).map diffError)) := by
  have h := foldl_gitChangesStep_errors diffs ⟨[], [], []⟩
  constructor
  · simpa [gitChangesState] using h
  · intro hne
    have he : (gitChangesState diffs).errors = (diffs.filter isBadDiff).map diffError := by
      simpa [gitChangesState] using h
    simp [gitChanges, he, List.isEmpty_iff, hne]

/-- C2 counterexample: the event `Added{other/unrelated.txt}` fails the
path grammar, yet `gitChanges` produces no structural error at all — its
path is not under the package root, so it is skipped silently and the
result is a successful empty change-set, not an error-only result. -/
theorem gitChanges_counterexample_unrelated :
    gitChanges [GitDiff.simple .A "other/unrelated.txt"] = .inr ([], []) := by decide

/-- C1 counterexample: after processing `[Deleted{types/foo/index.d.ts},
Added{types/foo/index.d.ts}]` the composite key `foo/v*` appears in BOTH
the deletions map and the additions map of the constructed change-set — a
later event for the same key in the other direction does not remove the
earlier record, refuting "the key appears in at most one of the two sets at
any time". -/
theorem gitChanges_key_in_both :
    (((gitChangesState [GitDiff.simple .D "types/foo/index.d.ts",
                        GitDiff.simple .A "types/foo/index.d.ts"]).deletions.map
        Prod.fst).contains "foo/v*" = true) ∧
    (((gitChangesState [GitDiff.simple .D "types/foo/index.d.ts",
                        GitDiff.simple .A "types/foo/index.d.ts"]).additions.map
        Prod.fst).contains "foo/v*" = true) := by decide

lemma mapSet_map_fst (m : List (String × α)) (k : String) (v : α) :
    (mapSet m k v).map Prod.fst =
      if m.any (fun kv => kv.1 == k) then m.map Prod.fst
      else m.map Prod.fst ++ [k] := by
  unfold mapSet
  split
  · rw [List.map_map]
    apply List.map_congr_left
    intro kv _
    by_cases hk : kv.1 = k
    · simp [Function.comp_apply, hk]
    · simp [Function.comp_apply, hk]
  · simp

lemma mapSet_nodup_fst (m : List (String × α)) (k : String) (v : α)
    (h : (m.map Prod.fst).Nodup) : ((mapSet m k v).map Prod.fst).Nodup := by
  rw [mapSet_map_fst]
  split
  · exact h
  · next hany =>
    rw [List.nodup_append]
    refine ⟨h, List.nodup_singleton k, ?_⟩
    intro a ha hb
    simp at hb
    subst hb
    apply hany
    rw [List.any_eq_true]
    obtain ⟨kv, hkv, hfst⟩ := List.mem_map.mp ha
    exact ⟨kv, hkv, by simp [hfst]⟩

lemma gitChangesStep_nodup (s : ChangeState) (d : GitDiff)
    (h1 : (s.deletions.map Prod.fst).Nodup) (h2 : (s.additions.map Prod.fst).Nodup) :
    ((gitChangesStep s d).deletions.map Prod.fst).Nodup ∧
    ((gitChangesStep s d).additions.map Prod.fst).Nodup := by
  by_cases hu : underTypes d.file
  · by_cases hm : d.isM
    · simp [gitChangesStep, hu, hm, h1, h2]
    · cases hdep : getDependencyFromFile d.file with
      | some dep =>
        cases d with
        | simple st f =>
          cases st <;>
            simp_all [gitChangesStep, GitDiff.isM, GitDiff.isD, GitDiff.file,
              mapSet_nodup_fst]
        | renamed f src =>
          cases hsrc : getDependencyFromFile src <;>
            simp_all [gitChangesStep, GitDiff.isM, GitDiff.isD, GitDiff.file,
              mapSet_nodup_fst]
      | none => simp [gitChangesStep, hu, hm, hdep, h1, h2]
  · simp [gitChangesStep, hu, h1, h2]

lemma foldl_gitChangesStep_nodup (diffs : List GitDiff) (s : ChangeState)
    (h1 : (s.deletions.map Prod.fst).Nodup) (h2 : (s.additions.map Prod.fst).Nodup) :
    ((diffs.foldl gitChangesStep s).deletions.map Prod.fst).Nodup ∧
    ((diffs.foldl gitChangesStep s).additions.map Prod.fst).Nodup := by
  induction diffs generalizing s with
  | nil => exact ⟨h1, h2⟩
  | cons d ds ih =>
    rw [List.foldl_cons]
    obtain ⟨g1, g2⟩ := gitChangesStep_nodup s d h1 h2
    exact ih _ g1 g2



lemma find?_mapSet_update (m : List (String × α)) (k : String) (v : α) :
    List.find? (fun kv => kv.1 == k)
        (m.map (fun kv => if kv.1 == k then (k, v) else kv)) =
      if m.any (fun kv => kv.1 == k) then some (k, v) else none := by
  induction m with
  | nil => simp
  | cons a as ih =>
    by_cases h : a.1 = k
    · have hupd : (if (a.1 == k) = true then (k, v) else a) = (k, v) := by simp [h]
      simp only [List.map_cons]
      rw [hupd, List.find?_cons_of_pos _ (by simp), List.any_cons]
      simp [h]
    · have hb : (a.1 == k) = false := by simp [h]
      have hupd : (if (a.1 == k) = true then (k, v) else a) = a := by simp [h]
      simp only [List.map_cons]
      rw [hupd, List.find?_cons_of_neg _ (by simp [h]), ih, List.any_cons, hb,
        Bool.false_or]

lemma find?_append_new (m : List (String × α)) (k : String) (v : α)
    (h : m.any (fun kv => kv.1 == k) = false) :
    List.find? (fun kv => kv.1 == k) (m ++ [(k, v)]) = some (k, v) := by
  induction m with
  | nil => simp
  | cons a as ih =>
    simp only [List.any_cons, Bool.or_eq_false_iff] at h
    obtain ⟨h1, h2⟩ := h
    rw [List.cons_append, List.find?_cons_of_neg _ (by simp [h1])]
    exact ih h2

lemma lookupKey_mapSet_self (m : List (String × α)) (k : String) (v : α) :
    lookupKey (mapSet m k v) k = some v := by
  unfold lookupKey mapSet
  by_cases h : m.any (fun kv => kv.1 == k) = true
  · rw [if_pos h, find?_mapSet_update, if_pos h]
    rfl
  · rw [if_neg h, find?_append_new m k v (by simpa only [Bool.not_eq_true] using h)]
    rfl

lemma find?_mapSet_update_other (m : List (String × α)) (k k' : String) (v : α)
    (h : k' ≠ k) :
    List.find? (fun kv => kv.1 == k')
        (m.map (fun kv => if kv.1 == k then (k, v) else kv)) =
      List.find? (fun kv => kv.1 == k') m := by
  induction m with
  | nil => simp
  | cons a as ih =>
    by_cases ha : a.1 = k
    · have h2 : (a.1 == k') = false := by
        simp only [beq_eq_false_iff_ne, ha]
        exact fun he => h he.symm
      have hk : ((k, v).1 == k') = false := by
        simp only [beq_eq_false_iff_ne]
        exact fun he => h he.symm
      have hupd : (if (a.1 == k) = true then (k, v) else a) = (k, v) := by simp [ha]
      simp only [List.map_cons]
      rw [hupd, List.find?_cons_of_neg _ (by simp [hk]), List.find?_cons_of_neg _ (by simp [h2]), ih]
    · have hupd : (if (a.1 == k) = true then (k, v) else a) = a := by simp [ha]
      simp only [List.map_cons]
      rw [hupd]
      by_cases ha' : a.1 = k'
      · rw [List.find?_cons_of_pos _ (by simp [ha']), List.find?_cons_of_pos _ (by simp [ha'])]
      · rw [List.find?_cons_of_neg _ (by simp [ha']), List.find?_cons_of_neg _ (by simp [ha']), ih]

lemma find?_append_other (m : List (String × α)) (k k' : String) (v : α)
    (h : k' ≠ k) :
    List.find? (fun kv => kv.1 == k') (m ++ [(k, v)]) =
      List.find? (fun kv => kv.1 == k') m := by
  induction m with
  | nil =>
    have hk : ((k, v).1 == k') = false := by
      simp only [beq_eq_false_iff_ne]
      exact fun he => h he.symm
    rw [List.nil_append, List.find?_cons_of_neg _ (by simp [hk])]
  | cons a as ih =>
    by_cases ha' : a.1 = k'
    · rw [List.cons_append, List.find?_cons_of_pos _ (by simp [ha']),
        List.find?_cons_of_pos _ (by simp [ha'])]
    · rw [List.cons_append, List.find?_cons_of_neg _ (by simp [ha']),
        List.find?_cons_of_neg _ (by simp [ha']), ih]

lemma lookupKey_mapSet_other (m : List (String × α)) (k k' : String) (v : α)
    (h : k' ≠ k) : lookupKey (mapSet m k v) k' = lookupKey m k' := by
  unfold lookupKey mapSet
  by_cases hany : m.any (fun kv => kv.1 == k) = true
  · rw [if_pos hany, find?_mapSet_update_other m k k' v h]
  · rw [if_neg hany, find?_append_other m k k' v h]

/-- C1 (amended): within each individual map the composite key is unique at
all times (the key lists of deletions and additions are duplicate-free for
every input), and a `Map.set` for an existing key overwrites the earlier
record while leaving every other key untouched (last-write-wins per key
within a map).  A key may however appear in both maps simultaneously. -/
theorem gitChanges_last_write_wins (diffs : List GitDiff) :
    ((gitChangesState diffs).deletions.map Prod.fst).Nodup ∧
    ((gitChangesState diffs).additions.map Prod.fst).Nodup ∧
    (∀ (m : List (String × PackageId)) (k : String) (v : PackageId),
      lookupKey (mapSet m k v) k = some v ∧
      ∀ k', k' ≠ k → lookupKey (mapSet m k v) k' = lookupKey m k') := by
  obtain ⟨h1, h2⟩ :=
    foldl_gitChangesStep_nodup diffs ⟨[], [], []⟩ (by simp) (by simp)
  exact ⟨h1, h2, fun m k v =>
    ⟨lookupKey_mapSet_self m k v, fun k' hk => lookupKey_mapSet_other m k k' v hk⟩⟩

lemma listStartsWith_self_append (n suf : List Char) :
    listStartsWith (n ++ suf) n = true := by
  induction n with
  | nil => simp [listStartsWith]
  | cons c cs ih => simp [listStartsWith, ih]

lemma listContainsSeg_nil_needle (hay : List Char) :
    listContainsSeg hay [] = true := by
  cases hay with
  | nil => simp [listContainsSeg, List.isEmpty]
  | cons a rest => simp [listContainsSeg, listStartsWith]

lemma listContainsSeg_mid (pre n suf : List Char) :
    listContainsSeg (pre ++ (n ++ suf)) n = true := by
  induction pre with
  | nil =>
    cases n with
    | nil => simp [listContainsSeg_nil_needle]
    | cons c cs =>
      simp only [List.nil_append, listContainsSeg, List.append_eq]
      have h := listStartsWith_self_append (c :: cs) suf
      rw [List.cons_append] at h
      rw [h]
      simp
  | cons p ps ih =>
    simp only [List.cons_append, listContainsSeg, List.append_eq]
    rw [ih]
    simp

lemma strContains_mid (pre needle suf : String)
    (hay : String) (h : hay.data = pre.data ++ (needle.data ++ suf.data)) :
    strContains hay needle = true := by
  rw [strContains, h]
  exact listContainsSeg_mid _ _ _

/-- C5: when both registry lookups of `checkNotNeededPackage` succeed, an
error is produced if and only if the deprecation record version is not
strictly greater (semantic-version ordering) than the deprecated package
latest published version, and that error cites both versions (both rendered
versions occur in the message). -/
theorem checkNotNeededPackage_version_order (reg : String → RegResult)
    (u : NotNeededPackage) (rv tv : Semver)
    (h1 : reg (replSpec u) = .manifest rv)
    (h2 : reg u.name = .manifest tv) :
    checkNotNeededPackage reg u =
      .ok (if semverGt u.version tv then [] else [versionOrderMsg u tv]) ∧
    strContains (versionOrderMsg u tv) (formatSemver u.version) = true ∧
    strContains (versionOrderMsg u tv) (formatSemver tv) = true := by
  refine ⟨?_, ?_, ?_⟩
  · rw [checkNotNeededPackage, h1, h2]
    by_cases hgt : semverGt u.version tv = true <;>
      simp [hgt, Bind.bind, Except.bind, pure, Except.pure]
  · apply strContains_mid "The specified version " _
      (" of " ++ u.libraryName ++
        " must be newer than the version\nit is supposed to replace, " ++
        formatSemver tv ++ " of " ++ u.name ++ ".")
    simp [versionOrderMsg, String.data_append]
  · apply strContains_mid
      ("The specified version " ++ formatSemver u.version ++ " of " ++
        u.libraryName ++
        " must be newer than the version\nit is supposed to replace, ") _
      (" of " ++ u.name ++ ".")
    simp [versionOrderMsg, String.data_append]

lemma append_ne_of_take_ne (l1 l2 r1 r2 : List Char) (n : Nat)
    (hn1 : n ≤ l1.length) (hn2 : n ≤ l2.length)
    (hne : l1.take n ≠ l2.take n) : l1 ++ r1 ≠ l2 ++ r2 := by
  intro h
  apply hne
  have h' := congrArg (List.take n) h
  rwa [List.take_append_of_le_length hn1, List.take_append_of_le_length hn2] at h'

lemma replNotFound_ne_versionNotOnNpm (u : NotNeededPackage) :
    replNotFoundMsg u ≠ versionNotOnNpmMsg u := by
  intro h
  have hd : (replNotFoundMsg u).data = (versionNotOnNpmMsg u).data := by rw [h]
  rw [replNotFoundMsg, versionNotOnNpmMsg] at hd
  simp only [String.data_append, List.append_assoc] at hd
  exact append_ne_of_take_ne _ _ _ _ 5 (by decide) (by decide) (by decide) hd

/-- C6: in `checkNotNeededPackage`, an `E404` for the replacement package
and an `ETARGET` each produce a collected error string with distinct
wording, while any other registry error — an unrecognised code on either
lookup, or `ETARGET` on the `@types` lookup — is rethrown and propagates as
a fatal failure rather than being collected. -/
theorem checkNotNeededPackage_registry_error_handling (reg : String → RegResult)
    (u : NotNeededPackage) :
    (∀ tv, reg (replSpec u) = .err .e404 → reg u.name = .manifest tv →
      ∃ tl, checkNotNeededPackage reg u = .ok (replNotFoundMsg u :: tl)) ∧
    (∀ tv, reg (replSpec u) = .err .etarget → reg u.name = .manifest tv →
      ∃ tl, checkNotNeededPackage reg u = .ok (versionNotOnNpmMsg u :: tl)) ∧
    replNotFoundMsg u ≠ versionNotOnNpmMsg u ∧
    (reg (replSpec u) = .err .other →
      checkNotNeededPackage reg u = .error .other) ∧
    (∀ c, reg (replSpec u) ≠ .err .other → reg u.name = .err c →
      c ≠ .e404 → checkNotNeededPackage reg u = .error c) := by
  refine ⟨?_, ?_, replNotFound_ne_versionNotOnNpm u, ?_, ?_⟩
  · intro tv h1 h2
    rw [checkNotNeededPackage, h1, h2]
    by_cases hgt : semverGt u.version tv = true
    · exact ⟨[], by simp [hgt, Bind.bind, Except.bind, pure, Except.pure]⟩
    · exact ⟨[versionOrderMsg u tv],
        by simp [hgt, Bind.bind, Except.bind, pure, Except.pure]⟩
  · intro tv h1 h2
    rw [checkNotNeededPackage, h1, h2]
    by_cases hgt : semverGt u.version tv = true
    · exact ⟨[], by simp [hgt, Bind.bind, Except.bind, pure, Except.pure]⟩
    · exact ⟨[versionOrderMsg u tv],
        by simp [hgt, Bind.bind, Except.bind, pure, Except.pure]⟩
  · intro h1
    rw [checkNotNeededPackage, h1]
    simp [Bind.bind, Except.bind]
  · intro c h1 h2 hc
    cases hr : reg (replSpec u) with
    | manifest v =>
      rw [checkNotNeededPackage, hr, h2]
      cases c with
      | e404 => exact absurd rfl hc
      | etarget => simp [Bind.bind, Except.bind, pure, Except.pure]
      | other => simp [Bind.bind, Except.bind, pure, Except.pure]
    | err code =>
      cases code with
      | e404 =>
        rw [checkNotNeededPackage, hr, h2]
        cases c with
        | e404 => exact absurd rfl hc
        | etarget => simp [Bind.bind, Except.bind, pure, Except.pure]
        | other => simp [Bind.bind, Except.bind, pure, Except.pure]
      | etarget =>
        rw [checkNotNeededPackage, hr, h2]
        cases c with
        | e404 => exact absurd rfl hc
        | etarget => simp [Bind.bind, Except.bind, pure, Except.pure]
        | other => simp [Bind.bind, Except.bind, pure, Except.pure]
      | other => exact absurd hr h1

lemma mapAssertDefined_ok (l : List PackageId)
    (h : ∀ p ∈ l, (p.typesDirectoryName).isSome = true) :
    mapAssertDefined l = .ok (l.filterMap (fun p => p.typesDirectoryName)) := by
  induction l with
  | nil => simp [mapAssertDefined]
  | cons p ps ih =>
    have hp := h p (List.mem_cons_self p ps)
    obtain ⟨d, hd⟩ := Option.isSome_iff_exists.mp hp
    have ihr := ih (fun q hq => h q (List.mem_cons_of_mem p hq))
    simp [mapAssertDefined, hd, ihr, Bind.bind, Except.bind, pure, Except.pure,
      List.filterMap_cons]

lemma mapAssertDefined_error (l : List PackageId)
    (h : ∃ p ∈ l, p.typesDirectoryName = none) :
    mapAssertDefined l = .error .assertUndefined := by
  induction l with
  | nil => simp at h
  | cons p ps ih =>
    cases hp : p.typesDirectoryName with
    | none => simp [mapAssertDefined, hp]
    | some d =>
      obtain ⟨q, hq, hqn⟩ := h
      rcases List.mem_cons.mp hq with rfl | hq'
      · rw [hp] at hqn
        exact absurd hqn (by simp)
      · have := ih ⟨q, hq', hqn⟩
        simp [mapAssertDefined, hp, this, Bind.bind, Except.bind]

/-- Is `p` flagged by the consistency check: still has typings and is listed
as deprecated. -/
def conflictP (ap : AllPackagesModel) (p : String) : Bool :=
  ap.hasTypingFor p && (ap.getNotNeededPackage p).isSome

/-- Is `p` accepted by the consistency check: listed as deprecated with no
remaining typings. -/
def acceptP (ap : AllPackagesModel) (p : String) : Bool :=
  !ap.hasTypingFor p && (ap.getNotNeededPackage p).isSome

lemma notNeededStep_foldl (ap : AllPackagesModel) (names : List String)
    (acc : List NotNeededPackage × List String) :
    names.foldl (notNeededStep ap) acc =
      (acc.1 ++ (names.filter (acceptP ap)).filterMap ap.getNotNeededPackage,
       acc.2 ++ (names.filter (conflictP ap)).map deleteFilesMsg) := by
  induction names generalizing acc with
  | nil => simp
  | cons p ps ih =>
    rw [List.foldl_cons, ih]
    cases hn : ap.getNotNeededPackage p with
    | none =>
      simp [notNeededStep, hn, List.filter_cons, conflictP, acceptP]
    | some n =>
      by_cases ht : ap.hasTypingFor p = true
      · simp [notNeededStep, hn, ht, List.filter_cons, conflictP, acceptP,
          List.filterMap_cons]
      · simp [notNeededStep, hn, ht, List.filter_cons, conflictP, acceptP,
          List.filterMap_cons]

/-- C7: `getNotNeededPackages` on the deduplicated deleted directory names
acts per package as a trichotomy: still-has-typings and listed as
deprecated gives a structural error; listed as deprecated with no remaining
typings is added to the validated list; otherwise silently skipped.  The
result is the error batch if any error was produced, else the validated
list. -/
theorem getNotNeededPackages_trichotomy (ap : AllPackagesModel)
    (deletions : List PackageId)
    (h : ∀ p ∈ deletions, (p.typesDirectoryName).isSome = true) :
    getNotNeededPackages ap deletions =
      .ok
        (if ((dedupe (deletions.filterMap (fun p => p.typesDirectoryName))).filter
              (conflictP ap)).isEmpty then
          .inr
            (((dedupe (deletions.filterMap (fun p => p.typesDirectoryName))).filter
                (acceptP ap)).filterMap ap.getNotNeededPackage)
        else
          .inl
            (((dedupe (deletions.filterMap (fun p => p.typesDirectoryName))).filter
                (conflictP ap)).map deleteFilesMsg)) := by
  rw [getNotNeededPackages, mapAssertDefined_ok deletions h]
  simp only [Bind.bind, Except.bind, notNeededStep_foldl, List.nil_append]
  by_cases he :
      ((dedupe (deletions.filterMap (fun p => p.typesDirectoryName))).filter
        (conflictP ap)).isEmpty = true
  · have : ((dedupe (deletions.filterMap (fun p => p.typesDirectoryName))).filter
        (conflictP ap)).map deleteFilesMsg = [] := by
      rw [List.isEmpty_iff] at he
      simp [he]
    simp [this, he, pure, Except.pure]
  · have : ¬(((dedupe (deletions.filterMap (fun p => p.typesDirectoryName))).filter
        (conflictP ap)).map deleteFilesMsg).isEmpty = true := by
      rw [List.isEmpty_iff] at he ⊢
      simp [he]
    simp [this, he, pure, Except.pure]

/-- C10: `getNotNeededPackages` throws (fatal `assertDefined` failure) if
any deletion carries an undefined `typesDirectoryName`; under the
precondition that every deletion has a defined directory name the assertion
branch is unreachable and the function always returns a value. -/
theorem getNotNeededPackages_assert (ap : AllPackagesModel)
    (deletions : List PackageId) :
    ((∃ p ∈ deletions, p.typesDirectoryName = none) →
      getNotNeededPackages ap deletions = .error .assertUndefined) ∧
    ((∀ p ∈ deletions, (p.typesDirectoryName).isSome = true) →
      ∃ r, getNotNeededPackages ap deletions = .ok r) := by
  constructor
  · intro h
    rw [getNotNeededPackages, mapAssertDefined_error deletions h]
    rfl
  · intro h
    rw [getNotNeededPackages, mapAssertDefined_ok deletions h]
    simp only [Bind.bind, Except.bind]
    by_cases he : ((dedupe (deletions.filterMap (fun p => p.typesDirectoryName))).foldl
        (notNeededStep ap) ([], [])).2.isEmpty = true
    · refine ⟨.inr ((dedupe (deletions.filterMap (fun p => p.typesDirectoryName))).foldl
        (notNeededStep ap) ([], [])).1, ?_⟩
      simp [he, pure, Except.pure]
    · refine ⟨.inl ((dedupe (deletions.filterMap (fun p => p.typesDirectoryName))).foldl
        (notNeededStep ap) ([], [])).2, ?_⟩
      simp [he, pure, Except.pure]

/-- C3: in `getAffectedPackagesFromDiff`, if `gitChanges` returns errors
they are returned directly and neither the deprecation validator nor the
affected-set resolver is invoked (empty call trace); if `gitChanges`
succeeds and deprecation validation produces a non-empty error list, the
validator runs before the resolver call, and the result is exactly that
error list for every possible resolver — the resolver output is
discarded. -/
theorem getAffectedPackagesFromDiff_cancellation (ap : AllPackagesModel)
    (reg : String → RegResult)
    (resolver : List PackageId → List PackageId →
      Sum (List String) PreparePackagesResult)
    (diffs : List GitDiff) :
    (∀ errs, gitChanges diffs = .inl errs →
      getAffectedPackagesFromDiff ap reg resolver diffs = (.ok (.inl errs), [])) ∧
    (∀ git errs, gitChanges diffs = .inr git →
      deprecationErrors ap reg diffs git.1 = .ok errs → errs ≠ [] →
      getAffectedPackagesFromDiff ap reg resolver diffs =
        (.ok (.inl errs), validatorTrace diffs ++ [.resolver])) := by
  constructor
  · intro errs h
    rw [getAffectedPackagesFromDiff, h]
  · intro git errs hg hd hne
    simp only [getAffectedPackagesFromDiff, hg, hd]
    have : errs.isEmpty = false := by
      rw [List.isEmpty_eq_false_iff_exists_mem]
      cases errs with
      | nil => exact absurd rfl hne
      | cons e es => exact ⟨e, List.mem_cons_self e es⟩
    simp [this]

/-- C1 witness: the amended theorem applied at concrete inputs. -/
theorem gitChanges_last_write_wins_witness :
    ("bar/v*" ≠ "foo/v*") ∧
    lookupKey
        (mapSet [("foo/v*", (⟨some "foo", .star⟩ : PackageId))] "foo/v*"
          ⟨some "foo", .exact 2 none⟩) "bar/v*" =
      lookupKey [("foo/v*", (⟨some "foo", .star⟩ : PackageId))] "bar/v*" :=
  ⟨by decide,
    ((gitChanges_last_write_wins []).2.2 [("foo/v*", ⟨some "foo", .star⟩)]
      "foo/v*" ⟨some "foo", .exact 2 none⟩).2 "bar/v*" (by decide)⟩

/-- C2 witness: the amended theorem applied at a concrete bad diff. -/
theorem gitChanges_structural_errors_witness :
    gitChanges [GitDiff.simple .A "types/foo"] =
      .inl [unexpectedFileError true "types/foo"] :=
  (gitChanges_structural_errors [GitDiff.simple .A "types/foo"]).2 (by decide)

/-- C4 witness: the spec scenario rename
`types/foo/index.d.ts → types/foo/v2/index.d.ts`. -/
theorem gitChanges_rename_equiv_witness :
    gitChanges [.renamed "types/foo/v2/index.d.ts" "types/foo/index.d.ts"] =
      gitChanges [.simple .D "types/foo/index.d.ts",
        .simple .A "types/foo/v2/index.d.ts"] :=
  gitChanges_rename_equiv "types/foo/index.d.ts" "types/foo/v2/index.d.ts"
    ⟨some "foo", .star⟩ ⟨some "foo", .exact 2 none⟩
    (by decide) (by decide) (by decide) (by decide)

/-- C5 witness: the spec scenario — replacement `lib-bar@2.0.0` against
latest published `2.1.0` produces the version-ordering error. -/
theorem checkNotNeededPackage_version_order_witness :
    checkNotNeededPackage
        (fun s => if s == "lib-bar@2.0.0" then .manifest ⟨2, 0, 0⟩
          else .manifest ⟨2, 1, 0⟩)
        ⟨"@types/bar", "lib-bar", ⟨2, 0, 0⟩⟩ =
      .ok [versionOrderMsg ⟨"@types/bar", "lib-bar", ⟨2, 0, 0⟩⟩ ⟨2, 1, 0⟩] :=
  (checkNotNeededPackage_version_order
    (fun s => if s == "lib-bar@2.0.0" then .manifest ⟨2, 0, 0⟩
      else .manifest ⟨2, 1, 0⟩)
    ⟨"@types/bar", "lib-bar", ⟨2, 0, 0⟩⟩ ⟨2, 0, 0⟩ ⟨2, 1, 0⟩
    (by decide) (by decide)).1.trans (by rfl)

/-- C6 witness: all four registry-outcome branches at concrete inputs. -/
theorem checkNotNeededPackage_registry_error_handling_witness :
    (∃ tl,
      checkNotNeededPackage
          (fun s => if s == "lib-bar@2.0.0" then .err .e404
            else .manifest ⟨2, 1, 0⟩)
          ⟨"@types/bar", "lib-bar", ⟨2, 0, 0⟩⟩ =
        .ok (replNotFoundMsg ⟨"@types/bar", "lib-bar", ⟨2, 0, 0⟩⟩ :: tl)) ∧
    (∃ tl,
      checkNotNeededPackage
          (fun s => if s == "lib-bar@2.0.0" then .err .etarget
            else .manifest ⟨2, 1, 0⟩)
          ⟨"@types/bar", "lib-bar", ⟨2, 0, 0⟩⟩ =
        .ok (versionNotOnNpmMsg ⟨"@types/bar", "lib-bar", ⟨2, 0, 0⟩⟩ :: tl)) ∧
    checkNotNeededPackage (fun _ => .err .other)
        ⟨"@types/bar", "lib-bar", ⟨2, 0, 0⟩⟩ = .error .other ∧
    checkNotNeededPackage
        (fun s => if s == "lib-bar@2.0.0" then .manifest ⟨2, 0, 0⟩
          else .err .etarget)
        ⟨"@types/bar", "lib-bar", ⟨2, 0, 0⟩⟩ = .error .etarget :=
  ⟨(checkNotNeededPackage_registry_error_handling _ _).1 ⟨2, 1, 0⟩
      (by decide) (by decide),
   (checkNotNeededPackage_registry_error_handling _ _).2.1 ⟨2, 1, 0⟩
      (by decide) (by decide),
   (checkNotNeededPackage_registry_error_handling _ _).2.2.2.1 (by decide),
   (checkNotNeededPackage_registry_error_handling _ _).2.2.2.2 .etarget
      (by decide) (by decide) (by decide)⟩

/-- C7 witness: one accepted and one skipped deleted package. -/
theorem getNotNeededPackages_trichotomy_witness :
    getNotNeededPackages
        ⟨fun _ => false,
         fun p => if p == "foo" then some ⟨"@types/foo", "foo", ⟨1, 0, 0⟩⟩
           else none⟩
        [⟨some "foo", .star⟩, ⟨some "bar", .star⟩] =
      .ok (.inr [⟨"@types/foo", "foo", ⟨1, 0, 0⟩⟩]) :=
  (getNotNeededPackages_trichotomy
    ⟨fun _ => false,
     fun p => if p == "foo" then some ⟨"@types/foo", "foo", ⟨1, 0, 0⟩⟩
       else none⟩
    [⟨some "foo", .star⟩, ⟨some "bar", .star⟩] (by decide)).trans (by rfl)

/-- C8 witness: a Modified event and an out-of-root event. -/
theorem gitChangesStep_ignores_witness :
    gitChangesStep ⟨[], [], []⟩ (.simple .M "types/foo/index.d.ts") =
        ⟨[], [], []⟩ ∧
    gitChangesStep ⟨[], [], []⟩ (.simple .A "other/unrelated.txt") =
        ⟨[], [], []⟩ :=
  ⟨gitChangesStep_ignores _ _ (Or.inl (by decide)),
   gitChangesStep_ignores _ _ (Or.inr (by decide))⟩

/-- C9 witness: a rename whose source path is outside the grammar. -/
theorem gitChangesStep_rename_bad_source_witness :
    gitChangesStep ⟨[], [], []⟩ (.renamed "types/foo/v2/index.d.ts" "outside.txt") =
      ⟨[], [("foo/v2", ⟨some "foo", .exact 2 none⟩)], []⟩ :=
  (gitChangesStep_rename_bad_source ⟨[], [], []⟩ "types/foo/v2/index.d.ts"
    "outside.txt" ⟨some "foo", .exact 2 none⟩
    (by decide) (by decide) (by decide)).trans (by decide)

/-- C10 witness: an undefined and a defined directory name. -/
theorem getNotNeededPackages_assert_witness :
    (getNotNeededPackages ⟨fun _ => false, fun _ => none⟩
        [⟨none, .star⟩] = .error .assertUndefined) ∧
    ∃ r, getNotNeededPackages ⟨fun _ => false, fun _ => none⟩
        [⟨some "foo", .star⟩] = .ok r :=
  ⟨(getNotNeededPackages_assert ⟨fun _ => false, fun _ => none⟩
      [⟨none, .star⟩]).1 (by decide),
   (getNotNeededPackages_assert ⟨fun _ => false, fun _ => none⟩
      [⟨some "foo", .star⟩]).2 (by decide)⟩

/-- C3 witness: both cancellation branches at concrete inputs. -/
theorem getAffectedPackagesFromDiff_cancellation_witness :
    (getAffectedPackagesFromDiff ⟨fun _ => false, fun _ => none⟩
        (fun _ => .err .other) (fun _ _ => .inr ⟨[], []⟩)
        [GitDiff.simple .A "types/foo"] =
      (.ok (.inl [unexpectedFileError true "types/foo"]), [])) ∧
    (getAffectedPackagesFromDiff
        ⟨fun _ => true,
         fun p => if p == "foo" then some ⟨"@types/foo", "foo", ⟨1, 0, 0⟩⟩
           else none⟩
        (fun _ => .err .other) (fun _ _ => .inr ⟨[], []⟩)
        [GitDiff.simple .D "types/foo/index.d.ts",
         GitDiff.simple .M "notNeededPackages.json"] =
      (.ok (.inl [deleteFilesMsg "foo"]), [.validator, .resolver])) :=
  ⟨(getAffectedPackagesFromDiff_cancellation _ _ _ _).1
      [unexpectedFileError true "types/foo"] (by decide),
   (getAffectedPackagesFromDiff_cancellation _ _ _ _).2
      ([⟨some "foo", .star⟩], []) [deleteFilesMsg "foo"]
      (by decide) (by rfl) (by decide)⟩
